import Mathlib

/-!
Verification of the ESP32 e-paper photo frame server (`app.py`): the 7-color
palette and nearest-color search, the Floyd-Steinberg dithering pass, the
pixel-to-byte-code encoder, and the in-memory delivery registry exposed through
the upload / get-img-data / status / clear-images endpoints.
-/

namespace Epaper

/-- An RGB color triple.  Channels are modelled as unbounded integers; the
display palette and decoded images use the range 0..255. -/
abbrev Rgb := Int × Int × Int

/-- The fixed `color_palette` dict from `app.py`: the 7 display colors with
their device byte codes, in insertion order White, Yellow, Orange, Red,
Green, Blue, Black. -/
def paletteList : List (Rgb × Nat) :=
  [((255, 255, 255), 0xFF),
   ((255, 255, 0), 0xFC),
   ((255, 165, 0), 0xEC),
   ((255, 0, 0), 0xE0),
   ((0, 128, 0), 0x35),
   ((0, 0, 255), 0x2B),
   ((0, 0, 0), 0x00)]

/-- The palette keys, in the dict's iteration (insertion) order. -/
def paletteColors : List Rgb := paletteList.map Prod.fst

/-- Squared Euclidean distance in RGB space, as computed by
`closest_palette_color` in `app.py`. -/
def sqDist (a b : Rgb) : Int :=
  (a.1 - b.1) ^ 2 + (a.2.1 - b.2.1) ^ 2 + (a.2.2 - b.2.2) ^ 2

/-- Test against the running minimum distance; `none` models the initial
`float(Inf)` value of `min_dist`, which every finite distance beats. -/
def beats (d : Int) : Option Int → Bool
  | none => true
  | some m => decide (d < m)

/-- The loop body of `closest_palette_color`: scan the candidate colors,
replacing the running best exactly when the new distance is strictly
smaller. -/
def closestAux (rgb : Rgb) : List Rgb → Rgb → Option Int → Rgb
  | [], best, _ => best
  | p :: t, best, bd =>
    if beats (sqDist rgb p) bd then closestAux rgb t p (some (sqDist rgb p))
    else closestAux rgb t best bd

/-- `closest_palette_color` from `app.py`: linear scan over the palette keys
starting from White with an infinite running minimum. -/
def closest_palette_color (rgb : Rgb) : Rgb :=
  closestAux rgb paletteColors (255, 255, 255) none

/-- Modelled from the spec: the first element of the list attaining the
minimum of `d` ("returns the entry with minimum distance; ties broken by
canonical palette order, first-listed wins").  Used only to state the
refinement claim about `closest_palette_color`. -/
def specFirstMin (d : Rgb → Int) : List Rgb → Option Rgb
  | [] => none
  | c :: t =>
    match specFirstMin d t with
    | none => some c
    | some m => some (if d c ≤ d m then c else m)

lemma specFirstMin_cons (d : Rgb → Int) (c : Rgb) (t : List Rgb) :
    specFirstMin d (c :: t) =
      match specFirstMin d t with
      | none => some c
      | some m => some (if d c ≤ d m then c else m) := rfl

lemma specFirstMin_eq_none {d : Rgb → Int} {l : List Rgb}
    (h : specFirstMin d l = none) : l = [] := by
  cases l with
  | nil => rfl
  | cons c t =>
    exfalso
    simp only [specFirstMin] at h
    cases hft : specFirstMin d t <;> rw [hft] at h <;> simp at h

lemma specFirstMin_min (d : Rgb → Int) :
    ∀ (l : List Rgb) (m : Rgb), specFirstMin d l = some m →
      m ∈ l ∧ ∀ x ∈ l, d m ≤ d x := by
  intro l
  induction l with
  | nil => intro m h; simp [specFirstMin] at h
  | cons c t ih =>
    intro m h
    simp only [specFirstMin] at h
    cases hft : specFirstMin d t with
    | none =>
      rw [hft] at h
      have ht : t = [] := specFirstMin_eq_none hft
      simp at h
      subst ht
      subst h
      exact ⟨List.mem_singleton.mpr rfl, by intro x hx; simp at hx; simp [hx]⟩
    | some mt =>
      rw [hft] at h
      simp at h
      obtain ⟨hmem, hmin⟩ := ih mt hft
      by_cases hc : d c ≤ d mt
      · rw [if_pos hc] at h
        subst h
        refine ⟨List.mem_cons_self _ _, ?_⟩
        intro x hx
        rcases List.mem_cons.mp hx with hx | hx
        · subst hx; exact le_refl _
        · exact le_trans hc (hmin x hx)
      · rw [if_neg hc] at h
        subst h
        refine ⟨List.mem_cons_of_mem _ hmem, ?_⟩
        intro x hx
        rcases List.mem_cons.mp hx with hx | hx
        · subst hx; exact le_of_lt (lt_of_not_le hc)
        · exact hmin x hx

lemma closestAux_spec (rgb : Rgb) :
    ∀ (l : List Rgb) (best : Rgb),
      specFirstMin (sqDist rgb) (best :: l) =
        some (closestAux rgb l best (some (sqDist rgb best))) := by
  intro l
  induction l with
  | nil =>
    intro best
    simp [specFirstMin, closestAux]
  | cons p t ih =>
    intro best
    by_cases h : sqDist rgb p < sqDist rgb best
    · have hstep : closestAux rgb (p :: t) best (some (sqDist rgb best)) =
          closestAux rgb t p (some (sqDist rgb p)) := by
        simp [closestAux, beats, h]
      rw [hstep]
      have hp := ih p
      have hminp := (specFirstMin_min (sqDist rgb) _ _ hp).2
      have hle : sqDist rgb (closestAux rgb t p (some (sqDist rgb p))) ≤ sqDist rgb p := by
        apply hminp
        exact List.mem_cons_self _ _
      show specFirstMin (sqDist rgb) (best :: p :: t) = _
      rw [specFirstMin_cons, hp]
      have hnot : ¬ sqDist rgb best ≤ sqDist rgb (closestAux rgb t p (some (sqDist rgb p))) := by
        linarith
      simp [hnot]
    · have hstep : closestAux rgb (p :: t) best (some (sqDist rgb best)) =
          closestAux rgb t best (some (sqDist rgb best)) := by
        simp [closestAux, beats, h]
      rw [hstep]
      have hbp : sqDist rgb best ≤ sqDist rgb p := le_of_not_lt h
      have hbest := ih best
      have hp := ih p
      cases hft : specFirstMin (sqDist rgb) t with
      | none =>
        have ht : t = [] := specFirstMin_eq_none hft
        subst ht
        simp only [specFirstMin, closestAux] at hbest hp ⊢
        have hle : sqDist rgb best ≤ sqDist rgb p := by linarith
        simp [hle]
      | some mt =>
        have hM : closestAux rgb t p (some (sqDist rgb p)) =
            if sqDist rgb p ≤ sqDist rgb mt then p else mt := by
          have := hp
          simp only [specFirstMin, hft] at this
          have h2 := Option.some.inj this
          exact h2.symm
        have hM' : closestAux rgb t best (some (sqDist rgb best)) =
            if sqDist rgb best ≤ sqDist rgb mt then best else mt := by
          have := hbest
          simp only [specFirstMin, hft] at this
          have h2 := Option.some.inj this
          exact h2.symm
        show specFirstMin (sqDist rgb) (best :: p :: t) = _
        rw [specFirstMin_cons, hp, hM, hM']
        by_cases hpmt : sqDist rgb p ≤ sqDist rgb mt
        · have hb : sqDist rgb best ≤ sqDist rgb p := by linarith
          have hbmt : sqDist rgb best ≤ sqDist rgb mt := le_trans hb hpmt
          simp [hpmt, hb, hbmt]
        · simp [hpmt]

/-- The rest of the palette after White. -/
def restColors : List Rgb :=
  [(255, 255, 0), (255, 165, 0), (255, 0, 0), (0, 128, 0), (0, 0, 255), (0, 0, 0)]

lemma paletteColors_eq : paletteColors = (255, 255, 255) :: restColors := rfl

lemma closest_spec (rgb : Rgb) :
    specFirstMin (sqDist rgb) paletteColors = some (closest_palette_color rgb) := by
  have hunfold : closest_palette_color rgb =
      closestAux rgb restColors (255, 255, 255) (some (sqDist rgb (255, 255, 255))) := by
    simp [closest_palette_color, paletteColors_eq, closestAux, beats]
  rw [hunfold, paletteColors_eq]
  exact closestAux_spec rgb restColors (255, 255, 255)

lemma closest_mem (rgb : Rgb) : closest_palette_color rgb ∈ paletteColors :=
  (specFirstMin_min (sqDist rgb) _ _ (closest_spec rgb)).1

lemma closest_min (rgb : Rgb) :
    ∀ p ∈ paletteColors, sqDist rgb (closest_palette_color rgb) ≤ sqDist rgb p :=
  (specFirstMin_min (sqDist rgb) _ _ (closest_spec rgb)).2

/-- C7: `closest_palette_color` returns the palette entry at minimum squared
Euclidean RGB distance from the input, resolving ties in favor of the entry
listed earlier in the canonical palette order White, Yellow, Orange, Red,
Green, Blue, Black: it coincides with the first minimizer of the distance over
the palette list. -/
theorem c7_nearest_color (rgb : Rgb) :
    specFirstMin (sqDist rgb) paletteColors = some (closest_palette_color rgb) ∧
    closest_palette_color rgb ∈ paletteColors ∧
    ∀ p ∈ paletteColors, sqDist rgb (closest_palette_color rgb) ≤ sqDist rgb p :=
  ⟨closest_spec rgb, closest_mem rgb, closest_min rgb⟩

/-- Witness for C7 at the concrete input (0,0,0): White is in the palette and
the chosen color is at least as close as White. -/
theorem c7_nearest_color_witness :
    ((255, 255, 255) : Rgb) ∈ paletteColors ∧
    sqDist (0, 0, 0) (closest_palette_color (0, 0, 0)) ≤
      sqDist (0, 0, 0) (255, 255, 255) :=
  ⟨by decide, (c7_nearest_color (0, 0, 0)).2.2 (255, 255, 255) (by decide)⟩

/-! ## Floyd-Steinberg dithering (`apply_floyd_steinberg_dithering`) -/

/-- A pixel buffer: the `numpy` int16 array indexed as `pixels[y, x]`,
modelled as a function from (x, y) coordinates to an RGB triple. -/
abbrev Buf := Nat → Nat → Rgb

/-- Wrap an integer into the int16 range, as numpy's int16 arithmetic does. -/
def wrap16 (n : Int) : Int := (n + 32768) % 65536 - 32768

/-- Pointwise int16 wrap of a triple. -/
def wrap16_3 (c : Rgb) : Rgb := (wrap16 c.1, wrap16 c.2.1, wrap16 c.2.2)

/-- Componentwise subtraction: the `quant_error` computation. -/
def sub3 (a b : Rgb) : Rgb := (a.1 - b.1, a.2.1 - b.2.1, a.2.2 - b.2.2)

/-- Componentwise addition. -/
def add3 (a b : Rgb) : Rgb := (a.1 + b.1, a.2.1 + b.2.1, a.2.2 + b.2.2)

/-- `(quant_error * k / 16).astype(np.int16)`: the float multiply and divide
are exact for these magnitudes, and the cast truncates toward zero and wraps
into int16. -/
def scaleErr (e : Rgb) (k : Int) : Rgb :=
  (wrap16 (Int.tdiv (e.1 * k) 16),
   wrap16 (Int.tdiv (e.2.1 * k) 16),
   wrap16 (Int.tdiv (e.2.2 * k) 16))

/-- Write the value `v` at coordinate (x, y). -/
def upd (b : Buf) (x y : Nat) (v : Rgb) : Buf :=
  fun x' y' => if x' = x ∧ y' = y then v else b x' y'

/-- `pixels[y, x][:3] += d` with numpy int16 wraparound. -/
def addAt (b : Buf) (x y : Nat) (d : Rgb) : Buf :=
  upd b x y (wrap16_3 (add3 (b x y) d))

/-- A guarded diffusion write: perform `addAt` only when the bounds check of
the source succeeds. -/
def diffuseIf (c : Prop) [Decidable c] (b : Buf) (x y : Nat) (d : Rgb) : Buf :=
  if c then addAt b x y d else b

/-- The body of the dithering double loop for the pixel at (x, y): quantize
the current value, store it, and diffuse the quantization error to the four
in-bounds neighbors, in source order. -/
def ditherStep (w h y x : Nat) (b : Buf) : Buf :=
  let old := b x y
  let q := closest_palette_color old
  let e := sub3 old q
  let b1 := upd b x y q
  let b2 := diffuseIf (x + 1 < w) b1 (x + 1) y (scaleErr e 7)
  let b3 := diffuseIf (1 ≤ x ∧ y + 1 < h) b2 (x - 1) (y + 1) (scaleErr e 3)
  let b4 := diffuseIf (y + 1 < h) b3 x (y + 1) (scaleErr e 5)
  diffuseIf (x + 1 < w ∧ y + 1 < h) b4 (x + 1) (y + 1) (scaleErr e 1)

/-- `for x in range(width)` starting at column `x`, running `n` iterations. -/
def rowLoop (w h y : Nat) : Nat → Nat → Buf → Buf
  | _, 0, b => b
  | x, n + 1, b => rowLoop w h y (x + 1) n (ditherStep w h y x b)

/-- `for y in range(height)` starting at row `y`, running `m` iterations. -/
def rowsLoop (w h : Nat) : Nat → Nat → Buf → Buf
  | _, 0, b => b
  | y, m + 1, b => rowsLoop w h (y + 1) m (rowLoop w h y 0 w b)

/-- `np.clip(v, 0, 255)` on one channel. -/
def clampChan (n : Int) : Int := max 0 (min n 255)

/-- `np.clip(pixels, 0, 255)` on one pixel. -/
def clamp3 (c : Rgb) : Rgb := (clampChan c.1, clampChan c.2.1, clampChan c.2.2)

/-- `apply_floyd_steinberg_dithering` from `app.py`: the full row-major
error-diffusion scan followed by the clamp to [0, 255]. -/
def apply_floyd_steinberg_dithering (w h : Nat) (b : Buf) : Buf :=
  fun x y => clamp3 (rowsLoop w h 0 h b x y)

lemma upd_ne (b : Buf) (x y : Nat) (v : Rgb) (px py : Nat)
    (h : ¬(px = x ∧ py = y)) : upd b x y v px py = b px py := by
  simp [upd, h]

lemma addAt_ne (b : Buf) (x y : Nat) (d : Rgb) (px py : Nat)
    (h : ¬(px = x ∧ py = y)) : addAt b x y d px py = b px py :=
  upd_ne _ _ _ _ _ _ h

lemma diffuseIf_ne (c : Prop) [Decidable c] (b : Buf) (x y : Nat) (d : Rgb)
    (px py : Nat) (h : ¬(px = x ∧ py = y)) :
    diffuseIf c b x y d px py = b px py := by
  by_cases hc : c
  · rw [diffuseIf, if_pos hc]
    exact addAt_ne _ _ _ _ _ _ h
  · rw [diffuseIf, if_neg hc]

/-- Frame property of one step: a pixel strictly earlier in row-major scan
order than (x, y) is not touched. -/
lemma ditherStep_frame (w h y x : Nat) (b : Buf) (px py : Nat)
    (hlt : py < y ∨ (py = y ∧ px < x)) :
    ditherStep w h y x b px py = b px py := by
  show diffuseIf _ _ _ _ _ px py = b px py
  rw [diffuseIf_ne, diffuseIf_ne, diffuseIf_ne, diffuseIf_ne, upd_ne] <;> omega

/-- One step assigns the quantized palette color at its own pixel. -/
lemma ditherStep_self (w h y x : Nat) (b : Buf) :
    ditherStep w h y x b x y = closest_palette_color (b x y) := by
  show diffuseIf _ _ _ _ _ x y = closest_palette_color (b x y)
  rw [diffuseIf_ne, diffuseIf_ne, diffuseIf_ne, diffuseIf_ne] <;>
    first
    | omega
    | simp [upd]

/-- Frame property of a row segment: pixels strictly before the segment start
in scan order are untouched. -/
lemma rowLoop_frame (w h y : Nat) :
    ∀ (n x : Nat) (b : Buf) (px py : Nat), py < y ∨ (py = y ∧ px < x) →
      rowLoop w h y x n b px py = b px py := by
  intro n
  induction n with
  | zero => intro x b px py _; rfl
  | succ n ih =>
    intro x b px py hlt
    show rowLoop w h y (x + 1) n (ditherStep w h y x b) px py = b px py
    rw [ih (x + 1) _ px py (by omega), ditherStep_frame w h y x b px py hlt]

/-- After a row segment, each processed pixel of that row holds a palette
color. -/
lemma rowLoop_palette (w h y : Nat) :
    ∀ (n x : Nat) (b : Buf) (px : Nat), x ≤ px → px < x + n →
      rowLoop w h y x n b px y ∈ paletteColors := by
  intro n
  induction n with
  | zero => intro x b px h1 h2; omega
  | succ n ih =>
    intro x b px h1 h2
    show rowLoop w h y (x + 1) n (ditherStep w h y x b) px y ∈ paletteColors
    rcases Nat.eq_or_lt_of_le h1 with heq | hgt
    · subst heq
      rw [rowLoop_frame w h y n (x + 1) _ x y (by omega), ditherStep_self]
      exact closest_mem _
    · exact ih (x + 1) _ px hgt (by omega)

/-- Frame property of the row loop: rows strictly above the first processed
row are untouched. -/
lemma rowsLoop_frame (w h : Nat) :
    ∀ (m y : Nat) (b : Buf) (px py : Nat), py < y →
      rowsLoop w h y m b px py = b px py := by
  intro m
  induction m with
  | zero => intro y b px py _; rfl
  | succ m ih =>
    intro y b px py hlt
    show rowsLoop w h (y + 1) m (rowLoop w h y 0 w b) px py = b px py
    rw [ih (y + 1) _ px py (by omega),
        rowLoop_frame w h y w 0 b px py (Or.inl hlt)]

/-- After the processed rows, every in-bounds pixel of those rows holds a
palette color. -/
lemma rowsLoop_palette (w h : Nat) :
    ∀ (m y : Nat) (b : Buf) (px py : Nat), px < w → y ≤ py → py < y + m →
      rowsLoop w h y m b px py ∈ paletteColors := by
  intro m
  induction m with
  | zero => intro y b px py _ h1 h2; omega
  | succ m ih =>
    intro y b px py hx h1 h2
    show rowsLoop w h (y + 1) m (rowLoop w h y 0 w b) px py ∈ paletteColors
    rcases Nat.eq_or_lt_of_le h1 with heq | hgt
    · subst heq
      rw [rowsLoop_frame w h m (y + 1) _ px y (by omega)]
      exact rowLoop_palette w h y w 0 b px (Nat.zero_le _) (by omega)
    · exact ih (y + 1) _ px py hx hgt (by omega)

/-- Clamping to [0, 255] fixes every palette color. -/
lemma clamp3_palette {c : Rgb} (hc : c ∈ paletteColors) : clamp3 c = c := by
  have h7 : paletteColors =
      [(255, 255, 255), (255, 255, 0), (255, 165, 0), (255, 0, 0),
       (0, 128, 0), (0, 0, 255), (0, 0, 0)] := rfl
  rw [h7] at hc
  fin_cases hc <;> decide

/-- C1: for every input raster, the dithering pass yields a raster in which
every in-bounds pixel equals one of the 7 palette colors: once a pixel is
quantized, every diffusion write targets a strictly later pixel in row-major
scan order, and the final clamp fixes palette colors. -/
theorem c1_palette_closure (w h : Nat) (b : Buf) (x y : Nat)
    (hx : x < w) (hy : y < h) :
    apply_floyd_steinberg_dithering w h b x y ∈ paletteColors := by
  have hmem : rowsLoop w h 0 h b x y ∈ paletteColors :=
    rowsLoop_palette w h h 0 b x y hx (Nat.zero_le _) (by omega)
  show clamp3 (rowsLoop w h 0 h b x y) ∈ paletteColors
  rw [clamp3_palette hmem]
  exact hmem

/-- A 1-by-1 near-black raster. -/
def oneBuf : Buf := fun _ _ => (10, 10, 10)

/-- Witness for C1 on a concrete 1-by-1 raster. -/
theorem c1_palette_closure_witness :
    0 < 1 ∧ apply_floyd_steinberg_dithering 1 1 oneBuf 0 0 ∈ paletteColors :=
  ⟨Nat.zero_lt_one, c1_palette_closure 1 1 oneBuf 0 0 Nat.zero_lt_one Nat.zero_lt_one⟩

/-! ## Encoding (`process_image`) -/

/-- Uppercase hexadecimal digit character, as produced by Python's uppercase
hex format specifier. -/
def hexChar (n : Nat) : Char :=
  if n < 10 then Char.ofNat (48 + n) else Char.ofNat (55 + n)

/-- Two-digit zero-padded uppercase hex rendering of a byte code, as produced
by the format string in `process_image` for codes below 256. -/
def hex2 (n : Nat) : String := String.mk [hexChar (n / 16), hexChar (n % 16)]

/-- Linear lookup in an association list, modelling the dict lookup. -/
def lookupCode : List (Rgb × Nat) → Rgb → Option Nat
  | [], _ => none
  | (k, v) :: t, c => if c = k then some v else lookupCode t c

/-- The `color_palette.get(tuple(rgb), 0xFF)` lookup from `process_image`. -/
def codeFor (c : Rgb) : Nat := (lookupCode paletteList c).getD 0xFF

/-- The textual token emitted for the pixel at (x, y). -/
def pixelToken (r : Buf) (x y : Nat) : String := "0x" ++ hex2 (codeFor (r x y))

/-- The tokens of row `y`, left to right. -/
def colTokens (r : Buf) (y w : Nat) : List String :=
  (List.range w).map (fun x => pixelToken r x y)

/-- The tokens of the first `n` rows, top to bottom: the `data_array` list
built by the nested loops of `process_image`. -/
def rowsTokens (r : Buf) (w : Nat) : Nat → List String
  | 0 => []
  | n + 1 => rowsTokens r w n ++ colTokens r n w

/-- The full token list for a w-by-h raster. -/
def encodeTokens (w h : Nat) (r : Buf) : List String := rowsTokens r w h

/-- Python's `sep.join(list)`. -/
def joinSep (sep : String) : List String → String
  | [] => ""
  | [a] => a
  | a :: t => a ++ sep ++ joinSep sep t

/-- `process_image` from `app.py`.  The base64 decode, `Image.open`, the
resize to 600 by 448 and the RGB conversion are external library calls; their
combined outcome is the `decoded` argument, `none` when any of them throws, in
which case the surrounding try/except returns `None`. -/
def process_image (decoded : Option Buf) : Option String :=
  match decoded with
  | none => none
  | some img =>
    some (joinSep ", "
      (encodeTokens 600 448 (apply_floyd_steinberg_dithering 600 448 img)))

lemma rowsTokens_length (r : Buf) (w : Nat) :
    ∀ n, (rowsTokens r w n).length = n * w := by
  intro n
  induction n with
  | zero => simp [rowsTokens]
  | succ n ih =>
    show (rowsTokens r w n ++ colTokens r n w).length = (n + 1) * w
    rw [List.length_append, ih]
    simp [colTokens]
    ring

lemma rowsTokens_get (r : Buf) (w : Nat) :
    ∀ (n y x : Nat), y < n → x < w →
      (rowsTokens r w n)[y * w + x]? = some (pixelToken r x y) := by
  intro n
  induction n with
  | zero => intro y x hy hx; omega
  | succ n ih =>
    intro y x hy hx
    show (rowsTokens r w n ++ colTokens r n w)[y * w + x]? = _
    rw [List.getElem?_append, rowsTokens_length]
    by_cases hyn : y < n
    · have hidx : y * w + x < n * w := by
        calc y * w + x < y * w + w := by omega
          _ = (y + 1) * w := by ring
          _ ≤ n * w := Nat.mul_le_mul_right w (by omega)
      rw [if_pos hidx]
      exact ih y x hyn hx
    · have hyeq : y = n := by omega
      subst hyeq
      rw [if_neg (by omega)]
      have hsub : y * w + x - y * w = x := by omega
      rw [hsub]
      simp [colTokens, List.getElem?_map, List.getElem?_range hx]

/-- The sixteen uppercase hexadecimal digit characters. -/
def hexDigits : List Char :=
  ['0', '1', '2', '3', '4', '5', '6', '7', '8', '9', 'A', 'B', 'C', 'D', 'E', 'F']

lemma hexChar_mem : ∀ n < 16, hexChar n ∈ hexDigits := by decide

lemma lookupCode_bound :
    ∀ (l : List (Rgb × Nat)) (c : Rgb) (v : Nat), (∀ p ∈ l, p.2 < 256) →
      lookupCode l c = some v → v < 256 := by
  intro l
  induction l with
  | nil => intro c v _ h; simp [lookupCode] at h
  | cons p t ih =>
    intro c v hall h
    rw [lookupCode] at h
    split_ifs at h with hc
    · have := hall p (List.mem_cons_self _ _)
      simp at h
      omega
    · exact ih c v (fun q hq => hall q (List.mem_cons_of_mem _ hq)) h

lemma codeFor_lt (c : Rgb) : codeFor c < 256 := by
  unfold codeFor
  cases hl : lookupCode paletteList c with
  | none => decide
  | some v =>
    simpa using lookupCode_bound paletteList c v (by decide) hl

/-- A well-formed wire token: the characters 0, x, then two uppercase hex
digits. -/
def tokenOk (t : String) : Prop :=
  ∃ c1 c2, t = String.mk ['0', 'x', c1, c2] ∧ c1 ∈ hexDigits ∧ c2 ∈ hexDigits

lemma pixelToken_ok (r : Buf) (x y : Nat) : tokenOk (pixelToken r x y) := by
  have hlt := codeFor_lt (r x y)
  refine ⟨hexChar (codeFor (r x y) / 16), hexChar (codeFor (r x y) % 16), rfl, ?_, ?_⟩
  · exact hexChar_mem _ (by omega)
  · exact hexChar_mem _ (Nat.mod_lt _ (by omega))

lemma tokenOk_length {t : String} (h : tokenOk t) : t.length = 4 := by
  obtain ⟨c1, c2, rfl, _, _⟩ := h
  rfl

/-- C4: the encoder builds one token per pixel in row-major order, 268,800 in
total for a 600 by 448 raster, each of the form 0xHH with two uppercase
zero-padded hex digits, and `process_image` joins them with a comma and
space. -/
theorem c4_encoder_output (r : Buf) (y x : Nat) (hy : y < 448) (hx : x < 600) :
    (∀ d : Buf, process_image (some d) =
      some (joinSep ", "
        (encodeTokens 600 448 (apply_floyd_steinberg_dithering 600 448 d)))) ∧
    (encodeTokens 600 448 r).length = 268800 ∧
    (encodeTokens 600 448 r)[y * 600 + x]? = some (pixelToken r x y) ∧
    tokenOk (pixelToken r x y) := by
  refine ⟨fun d => rfl, ?_, rowsTokens_get r 600 448 y x hy hx, pixelToken_ok r x y⟩
  show (rowsTokens r 600 448).length = 268800
  rw [rowsTokens_length]

/-- Witness for C4 at a concrete raster and pixel. -/
theorem c4_encoder_output_witness :
    (encodeTokens 600 448 oneBuf).length = 268800 ∧
    (encodeTokens 600 448 oneBuf)[0 * 600 + 0]? = some (pixelToken oneBuf 0 0) :=
  ⟨(c4_encoder_output oneBuf 0 0 (by decide) (by decide)).2.1,
   (c4_encoder_output oneBuf 0 0 (by decide) (by decide)).2.2.1⟩

/-! ## The 2-by-2 near-black raster of the round-trip property -/

/-- A 2-by-2 raster whose every pixel is RGB (10, 10, 10). -/
def twoBuf : Buf := fun _ _ => (10, 10, 10)

/-- Counterexample for C9 as stated: the quantization error of the near-black
pixel is (10, 10, 10), not zero, and the very first dithering step does
propagate a nonzero error into the right-hand neighbor. -/
theorem c9_counterexample :
    sub3 ((10, 10, 10) : Rgb) (closest_palette_color (10, 10, 10)) ≠ ((0, 0, 0) : Rgb) ∧
    ditherStep 2 2 0 0 twoBuf 1 0 ≠ twoBuf 1 0 := by
  decide

/-- C9 (amended): the all-(10,10,10) 2-by-2 raster dithers to entirely Black
pixels and encodes to four 0x00 tokens; the per-pixel quantization error is
(10, 10, 10) — nonzero — and is diffused to in-raster neighbors without
changing the all-Black outcome. -/
theorem c9_solid_black :
    apply_floyd_steinberg_dithering 2 2 twoBuf 0 0 = ((0, 0, 0) : Rgb) ∧
    apply_floyd_steinberg_dithering 2 2 twoBuf 1 0 = ((0, 0, 0) : Rgb) ∧
    apply_floyd_steinberg_dithering 2 2 twoBuf 0 1 = ((0, 0, 0) : Rgb) ∧
    apply_floyd_steinberg_dithering 2 2 twoBuf 1 1 = ((0, 0, 0) : Rgb) ∧
    encodeTokens 2 2 (apply_floyd_steinberg_dithering 2 2 twoBuf) =
      ["0x00", "0x00", "0x00", "0x00"] ∧
    sub3 ((10, 10, 10) : Rgb) (closest_palette_color (10, 10, 10)) = ((10, 10, 10) : Rgb) := by
  decide

/-! ## The in-memory delivery registry -/

/-- One stored image record: the dict appended by `upload_image`. -/
structure ImageRec where
  data : String
  timestamp : String
  name : String
deriving DecidableEq

/-- The module-level mutable state of `app.py`: `processed_images`,
`sent_images` and `current_image_index`. -/
structure RegistryState where
  processed_images : List ImageRec
  sent_images : List ImageRec
  current_image_index : Nat
deriving DecidableEq

/-- The state at module load: two empty lists and index 0. -/
def initialState : RegistryState := ⟨[], [], 0⟩

/-- Placeholder record for the (never taken) out-of-range list read. -/
def defaultRec : ImageRec := ⟨"", "", ""⟩

/-- `get_img_data` from `app.py`: on an empty registry answer the 404 error
(modelled as `none`) and leave the state alone; otherwise read the record at
`current_image_index % len`, advance the index modulo the length, record the
image in `sent_images` unless an equal record is already there (Python's
`in` on these dicts compares by content), and return the record's data. -/
def get_img_data (s : RegistryState) : Option String × RegistryState :=
  if s.processed_images.length = 0 then (none, s)
  else
    let len := s.processed_images.length
    let image := s.processed_images.getD (s.current_image_index % len) defaultRec
    let sent' := if image ∈ s.sent_images then s.sent_images else s.sent_images ++ [image]
    (some image.data,
     { s with current_image_index := (s.current_image_index + 1) % len,
              sent_images := sent' })

/-- Result of the upload endpoint. -/
inductive UploadResult where
  | ok (total : Nat)
  | errNoImage
  | errProcessing
deriving DecidableEq

/-- `upload_image` from `app.py`.  `imageField` is `none` when the request
body has no image key (the 400 branch); otherwise it carries the decode
outcome handed to `process_image`.  A falsy result — `None` or the empty
string — hits the 500 branch and stores nothing. -/
def upload_image (s : RegistryState) (imageField : Option (Option Buf))
    (nm : Option String) (ts : String) : UploadResult × RegistryState :=
  match imageField with
  | none => (.errNoImage, s)
  | some decoded =>
    match process_image decoded with
    | some payload =>
      if payload = "" then (.errProcessing, s)
      else
        (.ok (s.processed_images.length + 1),
         { s with processed_images := s.processed_images ++
             [⟨payload, ts, nm.getD ("image_" ++ toString (s.processed_images.length + 1))⟩] })
    | none => (.errProcessing, s)

/-- `status` from `app.py`: (total_images, sent_images, current_index). -/
def statusOf (s : RegistryState) : Nat × Nat × Nat :=
  (s.processed_images.length, s.sent_images.length, s.current_image_index)

/-- `clear_images` from `app.py`: reset all three module variables. -/
def clear_images (_ : RegistryState) : String × RegistryState :=
  ("All images cleared", initialState)

/-- The append performed by a successful upload: the registry-level store
operation. -/
def store (s : RegistryState) (r : ImageRec) : RegistryState :=
  { s with processed_images := s.processed_images ++ [r] }

/-- Iterated `get_img_data` state: the registry after `k` next calls. -/
def nextIter (s : RegistryState) : Nat → RegistryState
  | 0 => s
  | k + 1 => (get_img_data (nextIter s k)).2

lemma c2_aux (A B C : ImageRec) : ∀ k,
    (nextIter (store (store (store initialState A) B) C) k).processed_images = [A, B, C] ∧
    (nextIter (store (store (store initialState A) B) C) k).current_image_index = k % 3 := by
  intro k
  induction k with
  | zero => exact ⟨rfl, rfl⟩
  | succ k ih =>
    obtain ⟨hp, hi⟩ := ih
    constructor
    · show (get_img_data (nextIter (store (store (store initialState A) B) C) k)).2.processed_images = _
      simp [get_img_data, hp]
    · show (get_img_data (nextIter (store (store (store initialState A) B) C) k)).2.current_image_index = _
      simp [get_img_data, hp, hi]

/-- C2: after storing A, B, C on the empty registry, the k-th `get_img_data`
call returns the data of the (k mod 3)-th record, the stored sequence stays
[A, B, C] (nothing is removed), and the status total stays 3. -/
theorem c2_registry_cycling (A B C : ImageRec) (k : Nat) :
    (get_img_data (nextIter (store (store (store initialState A) B) C) k)).1 =
      some (([A, B, C].getD (k % 3) defaultRec).data) ∧
    (nextIter (store (store (store initialState A) B) C) k).processed_images = [A, B, C] ∧
    (statusOf (nextIter (store (store (store initialState A) B) C) k)).1 = 3 := by
  obtain ⟨hp, hi⟩ := c2_aux A B C k
  refine ⟨?_, hp, by simp [statusOf, hp]⟩
  have hmod : k % 3 % 3 = k % 3 := by omega
  simp [get_img_data, hp, hi, hmod]

/-- A concrete record. -/
def recA : ImageRec := ⟨"d", "t", "n"⟩

/-- Counterexample for C3 as stated: with two content-equal stored entries,
delivering both still yields a delivered count of 1, not the 2 that
identity-based (per-entry) tracking would give. -/
theorem c3_counterexample :
    (statusOf (nextIter (store (store initialState recA) recA) 2)).2.1 = 1 ∧
    (statusOf (nextIter (store (store initialState recA) recA) 2)).2.1 ≠ 2 := by
  decide

/-- C3 (amended): `get_img_data` marks delivery by content equality, not
identity: storing the same record twice and delivering both entries leaves a
single entry in `sent_images`, so the delivered count reported by `status`
counts distinct contents, while the total stays 2. -/
theorem c3_delivered_by_equality (r : ImageRec) :
    (statusOf (nextIter (store (store initialState r) r) 2)).2.1 = 1 ∧
    (statusOf (nextIter (store (store initialState r) r) 2)).1 = 2 ∧
    (nextIter (store (store initialState r) r) 2).sent_images = [r] := by
  have h0 : store (store initialState r) r = ⟨[r, r], [], 0⟩ := rfl
  have hn : nextIter (store (store initialState r) r) 2 =
      (get_img_data (get_img_data (store (store initialState r) r)).2).2 := rfl
  have h1 : get_img_data ⟨[r, r], [], 0⟩ = (some r.data, ⟨[r, r], [r], 1⟩) := by
    simp [get_img_data]
  have h2 : get_img_data ⟨[r, r], [r], 1⟩ = (some r.data, ⟨[r, r], [r], 0⟩) := by
    simp [get_img_data]
  rw [hn, h0, h1]
  simp only
  rw [h2]
  exact ⟨rfl, rfl, rfl⟩

/-- C5: `get_img_data` fails (404, nothing returned) exactly when the registry
is empty, the failure leaves the state untouched, and on a freshly cleared
registry the next call fails this way with the state still untouched. -/
theorem c5_empty_next (s : RegistryState) :
    ((get_img_data s).1 = none ↔ s.processed_images = []) ∧
    (s.processed_images = [] → (get_img_data s).2 = s) ∧
    (get_img_data (clear_images s).2).1 = none ∧
    (get_img_data (clear_images s).2).2 = (clear_images s).2 := by
  refine ⟨?_, ?_, ?_, ?_⟩
  · by_cases h : s.processed_images.length = 0
    · simp [get_img_data, h, List.length_eq_zero.mp h]
    · simp [get_img_data, h]
      intro hc
      exact h (by simp [hc])
  · intro h
    have hlen : s.processed_images.length = 0 := by simp [h]
    simp [get_img_data, hlen]
  · simp [clear_images, get_img_data, initialState]
  · simp [clear_images, get_img_data, initialState]

/-- Witness for C5: the empty registry case at the initial state. -/
theorem c5_empty_next_witness :
    ((get_img_data initialState).1 = none ↔ initialState.processed_images = []) ∧
    (get_img_data initialState).2 = initialState :=
  ⟨(c5_empty_next initialState).1, (c5_empty_next initialState).2.1 rfl⟩

/-- C6: when the processing pipeline fails, the upload endpoint returns the
explicit 500 error value and the registry state is returned exactly as it
was: nothing is appended, the index and the sent list are untouched. -/
theorem c6_failure_no_store (s : RegistryState) (d : Option Buf)
    (nm : Option String) (ts : String) (h : process_image d = none) :
    upload_image s (some d) nm ts = (UploadResult.errProcessing, s) := by
  simp [upload_image, h]

/-- Witness for C6 at the initial state with a failing decode. -/
theorem c6_failure_no_store_witness :
    upload_image initialState (some none) none "" = (UploadResult.errProcessing, initialState) :=
  c6_failure_no_store initialState none none "" rfl

/-- The registry operations reachable through the HTTP surface. -/
inductive RegOp where
  | store (r : ImageRec)
  | next
  | statusQ
  | clearQ

/-- State transition of one registry operation. -/
def applyOp (s : RegistryState) : RegOp → RegistryState
  | .store r => store s r
  | .next => (get_img_data s).2
  | .statusQ => s
  | .clearQ => (clear_images s).2

/-- The state reached from the initial empty registry by a sequence of
operations. -/
def runOps (ops : List RegOp) : RegistryState := ops.foldl applyOp initialState

/-- The registry invariant: the cursor is within bounds whenever the sequence
is nonempty, and is pinned to 0 on the empty sequence. -/
def regInv (s : RegistryState) : Prop :=
  (0 < s.processed_images.length →
    s.current_image_index < s.processed_images.length) ∧
  (s.processed_images = [] → s.current_image_index = 0)

lemma get_img_data_empty (s : RegistryState) (h : s.processed_images.length = 0) :
    get_img_data s = (none, s) := by
  rw [get_img_data, if_pos h]

lemma get_img_data_snd_processed (s : RegistryState) :
    (get_img_data s).2.processed_images = s.processed_images := by
  rw [get_img_data]
  split_ifs <;> rfl

lemma get_img_data_snd_index (s : RegistryState)
    (h : ¬ s.processed_images.length = 0) :
    (get_img_data s).2.current_image_index =
      (s.current_image_index + 1) % s.processed_images.length := by
  rw [get_img_data, if_neg h]

lemma applyOp_inv (s : RegistryState) (op : RegOp) (h : regInv s) :
    regInv (applyOp s op) := by
  obtain ⟨h1, h2⟩ := h
  cases op with
  | store r =>
    have hlen : (applyOp s (RegOp.store r)).processed_images.length =
        s.processed_images.length + 1 := by
      simp [applyOp, store]
    have hidx : (applyOp s (RegOp.store r)).current_image_index =
        s.current_image_index := rfl
    constructor
    · intro _
      rw [hlen, hidx]
      by_cases hl : 0 < s.processed_images.length
      · exact Nat.lt_succ_of_lt (h1 hl)
      · have := h2 (List.length_eq_zero.mp (by omega))
        omega
    · intro hc
      have := congrArg List.length hc
      rw [hlen] at this
      simp at this
  | next =>
    by_cases hl : s.processed_images.length = 0
    · show regInv (get_img_data s).2
      rw [get_img_data_empty s hl]
      exact ⟨h1, h2⟩
    · constructor
      · intro _
        show (get_img_data s).2.current_image_index <
          (get_img_data s).2.processed_images.length
        rw [get_img_data_snd_index s hl, get_img_data_snd_processed]
        exact Nat.mod_lt _ (by omega)
      · intro hc
        rw [show applyOp s .next = (get_img_data s).2 from rfl,
            get_img_data_snd_processed] at hc
        exact absurd hc (fun he => hl (by rw [he]; rfl))
  | statusQ => exact ⟨h1, h2⟩
  | clearQ =>
    show regInv initialState
    exact ⟨fun hq => absurd hq (by decide), fun _ => rfl⟩

lemma runOps_inv_aux :
    ∀ (ops : List RegOp) (s : RegistryState), regInv s →
      regInv (ops.foldl applyOp s) := by
  intro ops
  induction ops with
  | nil => intro s h; exact h
  | cons op t ih => intro s h; exact ih _ (applyOp_inv s op h)

/-- C8: in every state reachable from the empty registry by store, next,
status and clear operations, the cursor is in [0, len) whenever the sequence
is nonempty, and equals 0 whenever the sequence is empty. -/
theorem c8_registry_invariant (ops : List RegOp) :
    (0 < (runOps ops).processed_images.length →
      (runOps ops).current_image_index < (runOps ops).processed_images.length) ∧
    ((runOps ops).processed_images = [] → (runOps ops).current_image_index = 0) :=
  runOps_inv_aux ops initialState ⟨fun h => absurd h (by decide), fun _ => rfl⟩

/-- Witness for C8 on a concrete operation sequence. -/
theorem c8_registry_invariant_witness :
    0 < (runOps [RegOp.store recA, RegOp.next]).processed_images.length ∧
    (runOps [RegOp.store recA, RegOp.next]).current_image_index <
      (runOps [RegOp.store recA, RegOp.next]).processed_images.length :=
  ⟨by decide, (c8_registry_invariant [RegOp.store recA, RegOp.next]).1 (by decide)⟩

lemma rowsTokens_mem {r : Buf} {w : Nat} :
    ∀ {n : Nat} {t : String}, t ∈ rowsTokens r w n → ∃ x y, t = pixelToken r x y := by
  intro n
  induction n with
  | zero => intro t ht; simp [rowsTokens] at ht
  | succ n ih =>
    intro t ht
    rw [rowsTokens] at ht
    rcases List.mem_append.mp ht with h | h
    · exact ih h
    · simp [colTokens] at h
      obtain ⟨x, hx, hxe⟩ := h
      exact ⟨x, n, hxe.symm⟩

lemma joinSep_length_ge (sep a : String) :
    ∀ (l : List String), a.length ≤ (joinSep sep (a :: l)).length := by
  intro l
  cases l with
  | nil => simp [joinSep]
  | cons b t =>
    show a.length ≤ (a ++ sep ++ joinSep sep (b :: t)).length
    simp [String.length_append]
    omega

lemma payload_ne_empty (r : Buf) :
    joinSep ", " (encodeTokens 600 448 r) ≠ "" := by
  have hlen : (encodeTokens 600 448 r).length = 268800 := by
    show (rowsTokens r 600 448).length = 268800
    rw [rowsTokens_length]
  cases hE : encodeTokens 600 448 r with
  | nil => rw [hE] at hlen; simp at hlen
  | cons a t =>
    obtain ⟨x, y, hxy⟩ := rowsTokens_mem (r := r) (w := 600)
      (show a ∈ rowsTokens r 600 448 from by
        rw [show rowsTokens r 600 448 = encodeTokens 600 448 r from rfl, hE]
        exact List.mem_cons_self _ _)
    have h4 : a.length = 4 := by rw [hxy]; exact tokenOk_length (pixelToken_ok r x y)
    have hge := joinSep_length_ge ", " a t
    intro hc
    rw [hc, h4] at hge
    simp at hge

/-- C10: a successful upload only appends one record, leaving the cursor, the
sent list and every previously stored record unchanged; `get_img_data` leaves
the stored sequence unchanged and the data it returns is exactly the data
field of the stored record at the cursor. -/
theorem c10_frame_effects (s : RegistryState) (d : Buf)
    (nm : Option String) (ts : String) :
    (∃ rec, (upload_image s (some (some d)) nm ts).2.processed_images =
        s.processed_images ++ [rec]) ∧
    (upload_image s (some (some d)) nm ts).2.sent_images = s.sent_images ∧
    (upload_image s (some (some d)) nm ts).2.current_image_index =
      s.current_image_index ∧
    (get_img_data s).2.processed_images = s.processed_images ∧
    (s.processed_images ≠ [] → (get_img_data s).1 =
      some ((s.processed_images.getD
        (s.current_image_index % s.processed_images.length) defaultRec).data)) := by
  have hne := payload_ne_empty (apply_floyd_steinberg_dithering 600 448 d)
  have hproc : process_image (some d) =
      some (joinSep ", " (encodeTokens 600 448 (apply_floyd_steinberg_dithering 600 448 d))) := rfl
  have hup : upload_image s (some (some d)) nm ts =
      (.ok (s.processed_images.length + 1),
       { s with processed_images := s.processed_images ++
           [⟨joinSep ", " (encodeTokens 600 448 (apply_floyd_steinberg_dithering 600 448 d)),
             ts, nm.getD ("image_" ++ toString (s.processed_images.length + 1))⟩] }) := by
    simp only [upload_image, hproc, if_neg hne]
  refine ⟨⟨_, by rw [hup]⟩, by rw [hup], by rw [hup], ?_, ?_⟩
  · by_cases hl : s.processed_images.length = 0
    · rw [get_img_data, if_pos hl]
    · rw [get_img_data, if_neg hl]
  · intro hc
    have hl : ¬ s.processed_images.length = 0 := fun he => hc (List.length_eq_zero.mp he)
    rw [get_img_data, if_neg hl]

/-- A registry holding one record, cursor at 0. -/
def oneState : RegistryState := ⟨[recA], [], 0⟩

/-- Witness for C10 at a concrete nonempty registry. -/
theorem c10_frame_effects_witness :
    oneState.processed_images ≠ [] ∧
    (get_img_data oneState).1 = some ((oneState.processed_images.getD
      (oneState.current_image_index % oneState.processed_images.length) defaultRec).data) :=
  ⟨by decide, (c10_frame_effects oneState oneBuf none "").2.2.2.2 (by decide)⟩

end Epaper
